import Mathlib

/-!
Shallow embedding of the apparent-horizon finder from
`notebooks/02-horizon-finding.ipynb`, together with proofs about it.

The only fully implemented routine of the notebook is `horizon_RHS`; the ODE
steppers (`euler_step`, `rk2_step`) and the shooting/secant machinery are
left as exercise stubs, so those are modelled from the specification text
and are marked as such in their doc comments.  Real arithmetic is modelled
exactly over `ℝ` (so `numpy.sqrt` becomes `Real.sqrt`, the Python `**`
becomes `Real.rpow`, and floating-point rounding is not modelled).
-/

namespace HorizonFinding

open Real

/-- Error raised by the precondition `assert` in `horizon_RHS`
(a negative singularity location). -/
inductive HorizonError
  | invalidInput
deriving DecidableEq

/-- The direct (unmirrored) per-source contribution accumulated in the loop
body of `horizon_RHS` (notebook lines 65-68): the triple of increments to
`(psi, dpsi_dr, dpsi_dtheta)` for one source at axial position `z`.
Note the literal Python `0.5**h` on line 68, which is `0.5` raised to the
power `h` (`Real.rpow`). -/
noncomputable def direct_contribution (h θ z : ℝ) : ℝ × ℝ × ℝ :=
  let distance := Real.sqrt ((h * Real.sin θ) ^ 2 + (h * Real.cos θ - z) ^ 2)
  (0.5 / distance,
   -(0.5 * (h - z * Real.cos θ) / distance ^ 3),
   -((0.5 : ℝ) ^ h * z * Real.sin θ / distance ^ 3))

/-- The mirror-image contribution added when `z > 0` (notebook lines 71-74):
same triple but with distance measured to `-z` and the sign of the
`dpsi_dtheta` cross term flipped. -/
noncomputable def mirror_contribution (h θ z : ℝ) : ℝ × ℝ × ℝ :=
  let distance := Real.sqrt ((h * Real.sin θ) ^ 2 + (h * Real.cos θ + z) ^ 2)
  (0.5 / distance,
   -(0.5 * (h + z * Real.cos θ) / distance ^ 3),
   (0.5 : ℝ) ^ h * z * Real.sin θ / distance ^ 3)

/-- Componentwise sum of two `(psi, dpsi_dr, dpsi_dtheta)` triples. -/
def add3 (a b : ℝ × ℝ × ℝ) : ℝ × ℝ × ℝ :=
  (a.1 + b.1, a.2.1 + b.2.1, a.2.2 + b.2.2)

/-- Everything one iteration of the source loop in `horizon_RHS` adds to the
accumulator: the direct contribution, plus the mirror contribution when
`z > 0` (notebook lines 64-74). -/
noncomputable def source_contribution (h θ z : ℝ) : ℝ × ℝ × ℝ :=
  if 0 < z then add3 (direct_contribution h θ z) (mirror_contribution h θ z)
  else direct_contribution h θ z

/-- The conformal-factor sample `(psi, dpsi_dr, dpsi_dtheta)` accumulated by
the source loop of `horizon_RHS`, starting from the flat background
`(1, 0, 0)` (notebook lines 61-75). -/
noncomputable def singularity_field (h θ : ℝ) (zs : List ℝ) : ℝ × ℝ × ℝ :=
  zs.foldl (fun acc z => add3 acc (source_contribution h θ z)) (1, 0, 0)

/-- The `cot θ · dh / C2` term of `horizon_RHS` (notebook lines 78-82),
forced to `0` when `θ` is within `1e-16` of `0` or `π`. -/
noncomputable def cot_term (dh θ C2 : ℝ) : ℝ :=
  if |θ| < 1e-16 ∨ |θ - Real.pi| < 1e-16 then 0
  else dh / (Real.tan θ * C2)

/-- The arithmetic core of `horizon_RHS` (notebook lines 58-88), after the
precondition `assert` has passed: destructure `H`, accumulate the
conformal-factor sample, and form the derivative vector `dHdtheta`. -/
noncomputable def horizon_RHS_core (H : ℝ × ℝ) (θ : ℝ) (zs : List ℝ) : ℝ × ℝ :=
  let h := H.1
  let dh := H.2
  let f := singularity_field h θ zs
  let psi := f.1
  let dpsi_dr := f.2.1
  let dpsi_dtheta := f.2.2
  let C2 := 1 / (1 + (dh / h) ^ 2)
  (dh,
   2 * h - cot_term dh θ C2
     + 4 * h ^ 2 / (psi * C2) * (dpsi_dr - dpsi_dtheta * dh / h ^ 2)
     + 3 * dh ^ 2 / h)

/-- `horizon_RHS` (notebook lines 35-88): the `assert` that every
singularity location is non-negative guards the whole computation, so a
negative entry yields `InvalidInput` before any accumulation. -/
noncomputable def horizon_RHS (H : ℝ × ℝ) (θ : ℝ) (zs : List ℝ) :
    Except HorizonError (ℝ × ℝ) :=
  if ∀ z ∈ zs, 0 ≤ z then .ok (horizon_RHS_core H θ zs)
  else .error .invalidInput

/-- Modelled from the spec: `euler_step` is an unfilled exercise stub in the
notebook (its cell holds only a comment placeholder); §4.3 defines it as
`H_{i+1} = H_i + Δθ · F(H_i, θ_i)` with `F = horizon_RHS`, errors from the
embedded `horizon_RHS` call propagating unchanged. -/
noncomputable def euler_step (Hi : ℝ × ℝ) (θi dθ : ℝ) (zs : List ℝ) :
    Except HorizonError (ℝ × ℝ) :=
  match horizon_RHS Hi θi zs with
  | .error e => .error e
  | .ok F => .ok (Hi.1 + dθ * F.1, Hi.2 + dθ * F.2)

/-- Modelled from the spec: `rk2_step` is an unfilled exercise stub in the
notebook; §4.3 defines it by the predictor `H_p = H_i + Δθ·F(H_i, θ_i)`
and corrector `H_{i+1} = 0.5·(H_i + H_p + Δθ·F(H_p, θ_{i+1}))`, errors
propagating unchanged. -/
noncomputable def rk2_step (Hi : ℝ × ℝ) (θi dθ : ℝ) (zs : List ℝ) :
    Except HorizonError (ℝ × ℝ) :=
  match horizon_RHS Hi θi zs with
  | .error e => .error e
  | .ok F1 =>
    let Hp := (Hi.1 + dθ * F1.1, Hi.2 + dθ * F1.2)
    match horizon_RHS Hp (θi + dθ) zs with
    | .error e => .error e
    | .ok F2 =>
      .ok (0.5 * (Hi.1 + Hp.1 + dθ * F2.1), 0.5 * (Hi.2 + Hp.2 + dθ * F2.2))

/-- The integration driver of the notebook (lines 120-128): starting from
`H0` at angle `0`, apply the stepper once per grid interval, the `i`-th
step being taken at angle `θ_i = i·Δθ` of the uniform grid.  Returns the
state after `i` steps; an error from any step propagates. -/
noncomputable def integrate
    (stepf : ℝ × ℝ → ℝ → ℝ → List ℝ → Except HorizonError (ℝ × ℝ))
    (H0 : ℝ × ℝ) (dθ : ℝ) (zs : List ℝ) : ℕ → Except HorizonError (ℝ × ℝ)
  | 0 => .ok H0
  | i + 1 =>
    match integrate stepf H0 dθ zs i with
    | .error e => .error e
    | .ok Hi => stepf Hi ((i : ℝ) * dθ) dθ zs

/-- Failure modes of the secant solver (spec §4.6). -/
inductive SecantError
  | divergence (x R : ℝ)
  | nonConvergence (x R : ℝ)

/-- Modelled from the spec: the body of `secant` is an unfilled exercise
stub in the notebook (only the signature `secant(R, x0, x1, args,
tolerance = 1e-10)` is given); §4.6 defines the iteration
`x_{n+1} = x_n − R(x_n)(x_n − x_{n−1})/(R(x_n) − R(x_{n−1}))`, stopping
with the root once `|R(x_n)| < tolerance`, with a `DivergenceError` when
the denominator vanishes, and with a `NonConvergenceError` carrying the
last iterate and residual once the iteration budget is exhausted.  The
first argument of the fuel counter is the number of updates still
allowed. -/
noncomputable def secant_loop (R : ℝ → ℝ) (tol : ℝ) :
    ℕ → ℝ → ℝ → Except SecantError ℝ
  | 0, _, x1 =>
    if |R x1| < tol then .ok x1 else .error (.nonConvergence x1 (R x1))
  | n + 1, x0, x1 =>
    if |R x1| < tol then .ok x1
    else if R x1 - R x0 = 0 then .error (.divergence x1 (R x1))
    else secant_loop R tol n x1 (x1 - R x1 * (x1 - x0) / (R x1 - R x0))

/-- Modelled from the spec: `SecantSolver.solve` per §4.6, taking the
iteration budget `maxIterations` alongside the tolerance (whose notebook
default is `1e-10`; see `default_tolerance`). -/
noncomputable def secant (R : ℝ → ℝ) (x0 x1 : ℝ) (maxIterations : ℕ)
    (tolerance : ℝ) : Except SecantError ℝ :=
  secant_loop R tolerance maxIterations x0 x1

/-- The default value in the notebook for the `tolerance` parameter of `secant`
(line 241: `tolerance = 1e-10`). -/
def default_tolerance : ℝ := 1e-10

theorem horizon_RHS_ok (H : ℝ × ℝ) (θ : ℝ) (zs : List ℝ)
    (hzs : ∀ z ∈ zs, 0 ≤ z) :
    horizon_RHS H θ zs = .ok (horizon_RHS_core H θ zs) := by
  unfold horizon_RHS
  rw [if_pos hzs]

/-- C1 (counterexample): at the query point `(h, θ) = (3, π/2)` with a source
at `z = 4` (distance `5`), the direct per-source `dψ_dθ` increment of the
code is `-(0.5^3·4/125) = -1/250`, not the claimed
`-(0.5·3·4/125) = -6/125`: the Python `0.5**h` on notebook line 68 is `0.5`
raised to the power `h`, not `0.5·h`. -/
theorem direct_cross_term_power_counterexample :
    (direct_contribution 3 (Real.pi / 2) 4).2.2 ≠
      -(0.5 * 3 * 4 * Real.sin (Real.pi / 2)
        / Real.sqrt ((3 * Real.sin (Real.pi / 2)) ^ 2
            + (3 * Real.cos (Real.pi / 2) - 4) ^ 2) ^ 3) := by
  have hs : Real.sin (Real.pi / 2) = 1 := Real.sin_pi_div_two
  have hc : Real.cos (Real.pi / 2) = 0 := Real.cos_pi_div_two
  have hsqrt : Real.sqrt (((3 : ℝ) * Real.sin (Real.pi / 2)) ^ 2
      + (3 * Real.cos (Real.pi / 2) - 4) ^ 2) = 5 := by
    rw [hs, hc]
    rw [show ((3:ℝ) * 1) ^ 2 + (3 * 0 - 4) ^ 2 = 5 ^ 2 by norm_num]
    exact Real.sqrt_sq (by norm_num)
  have hpow : (0.5 : ℝ) ^ (3 : ℝ) = 1 / 8 := by
    rw [show (3 : ℝ) = ((3 : ℕ) : ℝ) by norm_num, Real.rpow_natCast]
    norm_num
  unfold direct_contribution
  dsimp only
  rw [hsqrt, hs, hpow]
  norm_num

/-- C1 (amended): for a query point `(h, θ)` with `h > 0` and a source at
`z ≥ 0` not coincident with it, the direct (unmirrored) per-source
accumulation adds `0.5/distance` to `ψ`, subtracts
`0.5·(h − z·cosθ)/distance³` from `dψ_dr`, and subtracts
`0.5^h·z·sinθ/distance³` (with `0.5` raised to the power `h`, the literal
`0.5**h` of the code) from `dψ_dθ`, where
`distance = sqrt((h·sinθ)² + (h·cosθ − z)²)`. -/
theorem direct_accumulation_formula (h θ z ψ dr dθa : ℝ)
    (hh : 0 < h) (hz : 0 ≤ z)
    (hne : (h * Real.sin θ) ^ 2 + (h * Real.cos θ - z) ^ 2 ≠ 0) :
    add3 (ψ, dr, dθa) (direct_contribution h θ z)
      = (ψ + 0.5 / Real.sqrt ((h * Real.sin θ) ^ 2 + (h * Real.cos θ - z) ^ 2),
         dr - 0.5 * (h - z * Real.cos θ)
           / Real.sqrt ((h * Real.sin θ) ^ 2 + (h * Real.cos θ - z) ^ 2) ^ 3,
         dθa - (0.5 : ℝ) ^ h * z * Real.sin θ
           / Real.sqrt ((h * Real.sin θ) ^ 2 + (h * Real.cos θ - z) ^ 2) ^ 3) := by
  unfold add3 direct_contribution
  dsimp only
  refine Prod.ext rfl (Prod.ext ?_ ?_) <;> dsimp only <;> ring

theorem direct_accumulation_formula_witness :
    (0 : ℝ) < 1 ∧ (0 : ℝ) ≤ 2
      ∧ ((1 * Real.sin 0) ^ 2 + (1 * Real.cos 0 - 2) ^ 2 ≠ 0)
      ∧ add3 (0, 0, 0) (direct_contribution 1 0 2)
        = (0 + 0.5 / Real.sqrt ((1 * Real.sin 0) ^ 2 + (1 * Real.cos 0 - 2) ^ 2),
           0 - 0.5 * (1 - 2 * Real.cos 0)
             / Real.sqrt ((1 * Real.sin 0) ^ 2 + (1 * Real.cos 0 - 2) ^ 2) ^ 3,
           0 - (0.5 : ℝ) ^ (1 : ℝ) * 2 * Real.sin 0
             / Real.sqrt ((1 * Real.sin 0) ^ 2 + (1 * Real.cos 0 - 2) ^ 2) ^ 3) := by
  have hne : ((1 : ℝ) * Real.sin 0) ^ 2 + (1 * Real.cos 0 - 2) ^ 2 ≠ 0 := by
    rw [Real.sin_zero, Real.cos_zero]
    norm_num
  exact ⟨by norm_num, by norm_num, hne,
    direct_accumulation_formula 1 0 2 0 0 0 one_pos (by norm_num) hne⟩

/-- C5: any `SingularitySet` containing a negative entry makes `horizon_RHS`
fail with `InvalidInput` (the `assert` on notebook line 56 precedes every
field accumulation and derivative evaluation, so the error branch of the
embedding contains no part of the computation), and the error propagates
unchanged through both steppers. -/
theorem negative_singularity_invalid_input (H : ℝ × ℝ) (θ dθ : ℝ)
    (zs : List ℝ) (hneg : ∃ z ∈ zs, z < 0) :
    horizon_RHS H θ zs = .error .invalidInput
    ∧ euler_step H θ dθ zs = .error .invalidInput
    ∧ rk2_step H θ dθ zs = .error .invalidInput := by
  have hnot : ¬ ∀ z ∈ zs, 0 ≤ z := by
    obtain ⟨z, hzmem, hzlt⟩ := hneg
    intro hall
    exact absurd (hall z hzmem) (not_le.mpr hzlt)
  have h1 : horizon_RHS H θ zs = .error .invalidInput := by
    unfold horizon_RHS
    rw [if_neg hnot]
  refine ⟨h1, ?_, ?_⟩
  · unfold euler_step
    rw [h1]
  · unfold rk2_step
    rw [h1]

theorem negative_singularity_invalid_input_witness :
    (∃ z ∈ [(-1 : ℝ)], z < 0)
      ∧ horizon_RHS (1, 0) 0 [(-1 : ℝ)] = .error .invalidInput := by
  have hex : ∃ z ∈ [(-1 : ℝ)], z < 0 := ⟨-1, by simp, by norm_num⟩
  exact ⟨hex, (negative_singularity_invalid_input (1, 0) 0 1 [(-1 : ℝ)] hex).1⟩

/-- C6: for a source at `z > 0` the loop adds, besides the direct
contribution, exactly the direct formula evaluated at `-z` (so its distance
is `sqrt((h·sinθ)² + (h·cosθ + z)²)`, its `ψ` and `dψ_dr` terms keep the
direct signs, and its `dψ_dθ` cross term flips sign); for `z = 0` only the
direct contribution is added, so an origin source is counted exactly
once. -/
theorem mirror_image_reflection (h θ z : ℝ) :
    (0 < z → source_contribution h θ z
      = add3 (direct_contribution h θ z) (direct_contribution h θ (-z)))
    ∧ (z = 0 → source_contribution h θ z = direct_contribution h θ z)
    ∧ mirror_contribution h θ z = direct_contribution h θ (-z) := by
  have hmir : mirror_contribution h θ z = direct_contribution h θ (-z) := by
    unfold mirror_contribution direct_contribution
    have harg : (h * Real.cos θ - -z) ^ 2 = (h * Real.cos θ + z) ^ 2 := by ring
    dsimp only
    rw [harg]
    refine Prod.ext rfl (Prod.ext ?_ ?_) <;> dsimp only <;> ring
  refine ⟨?_, ?_, hmir⟩
  · intro hz
    unfold source_contribution
    rw [if_pos hz, hmir]
  · intro hz
    unfold source_contribution
    rw [if_neg (by rw [hz]; exact lt_irrefl 0)]

theorem mirror_image_reflection_witness :
    source_contribution 1 0 1
        = add3 (direct_contribution 1 0 1) (direct_contribution 1 0 (-1))
      ∧ source_contribution 1 0 0 = direct_contribution 1 0 0 :=
  ⟨(mirror_image_reflection 1 0 1).1 one_pos,
   (mirror_image_reflection 1 0 0).2.1 rfl⟩

theorem cot_term_at_zero (dh C2 : ℝ) : cot_term dh 0 C2 = 0 := by
  unfold cot_term
  rw [if_pos]
  left
  rw [abs_zero]
  norm_num

theorem cot_term_at_pi_div_two (dh C2 : ℝ) : cot_term dh (Real.pi / 2) C2 = 0 := by
  unfold cot_term
  have hpi := Real.pi_gt_three
  rw [if_neg, Real.tan_pi_div_two, zero_mul, div_zero]
  push_neg
  constructor
  · rw [abs_of_nonneg (by positivity)]
    nlinarith
  · rw [show Real.pi / 2 - Real.pi = -(Real.pi / 2) by ring, abs_neg,
      abs_of_nonneg (by positivity)]
    nlinarith

/-- C2: at both boundary angles `θ = 0` and `θ = π/2` the `cot(θ)·dh/C2`
term of `horizon_RHS` is exactly `0` even for nonzero `dh` (at `θ = 0` it
is forced to `0` by the on-axis branch; at `θ = π/2` the cotangent itself
vanishes), so for every valid `SingularitySet` the returned derivative
vector is the real (hence finite) vector with no cot-term contribution. -/
theorem axis_cot_term_vanishes (h dh θ : ℝ) (zs : List ℝ)
    (hθ : θ = 0 ∨ θ = Real.pi / 2) (hzs : ∀ z ∈ zs, 0 ≤ z) :
    cot_term dh θ (1 / (1 + (dh / h) ^ 2)) = 0
    ∧ horizon_RHS (h, dh) θ zs = .ok (dh,
        2 * h
          + 4 * h ^ 2 / ((singularity_field h θ zs).1 * (1 / (1 + (dh / h) ^ 2)))
            * ((singularity_field h θ zs).2.1
                - (singularity_field h θ zs).2.2 * dh / h ^ 2)
          + 3 * dh ^ 2 / h) := by
  have hcot : ∀ C2 : ℝ, cot_term dh θ C2 = 0 := by
    intro C2
    rcases hθ with h0 | hpi2
    · rw [h0]
      exact cot_term_at_zero dh C2
    · rw [hpi2]
      exact cot_term_at_pi_div_two dh C2
  refine ⟨hcot _, ?_⟩
  rw [horizon_RHS_ok _ _ _ hzs]
  unfold horizon_RHS_core
  dsimp only
  rw [hcot]
  rw [sub_zero]

theorem axis_cot_term_vanishes_witness :
    ((0 : ℝ) = 0 ∨ (0 : ℝ) = Real.pi / 2)
      ∧ cot_term 1 0 (1 / (1 + ((1 : ℝ) / 1) ^ 2)) = 0 :=
  ⟨Or.inl rfl, (axis_cot_term_vanishes 1 1 0 [] (Or.inl rfl) (by simp)).1⟩

/-- C4: for every state `(h, dh)` with `h ≠ 0`, every angle `θ` and every
valid `SingularitySet`, `horizon_RHS` returns the vector
`(dh, 2h − cot_term + 4h²/(ψ·C2)·(dψ_dr − dψ_dθ·dh/h²) + 3·dh²/h)` with
`C2 = 1/(1 + (dh/h)²)` and `(ψ, dψ_dr, dψ_dθ)` the conformal-factor sample
at `(h, θ)`. -/
theorem horizon_RHS_formula (h dh θ : ℝ) (zs : List ℝ)
    (hh : h ≠ 0) (hzs : ∀ z ∈ zs, 0 ≤ z) :
    horizon_RHS (h, dh) θ zs = .ok (dh,
      2 * h - cot_term dh θ (1 / (1 + (dh / h) ^ 2))
        + 4 * h ^ 2 / ((singularity_field h θ zs).1 * (1 / (1 + (dh / h) ^ 2)))
          * ((singularity_field h θ zs).2.1
              - (singularity_field h θ zs).2.2 * dh / h ^ 2)
        + 3 * dh ^ 2 / h) := by
  rw [horizon_RHS_ok _ _ _ hzs]
  unfold horizon_RHS_core
  dsimp only

theorem horizon_RHS_formula_witness :
    (1 : ℝ) ≠ 0
      ∧ horizon_RHS (1, 0) 0 [] = .ok (0,
          2 * 1 - cot_term 0 0 (1 / (1 + ((0 : ℝ) / 1) ^ 2))
            + 4 * 1 ^ 2 / ((singularity_field 1 0 []).1 * (1 / (1 + ((0 : ℝ) / 1) ^ 2)))
              * ((singularity_field 1 0 []).2.1
                  - (singularity_field 1 0 []).2.2 * 0 / 1 ^ 2)
            + 3 * 0 ^ 2 / 1) :=
  ⟨one_ne_zero, horizon_RHS_formula 1 0 0 [] one_ne_zero (by simp)⟩

/-- C9: the empty `SingularitySet` passes the non-negativity precondition
vacuously, the conformal-factor sample stays at the flat background
`(1, 0, 0)`, and `horizon_RHS` returns the flat-space right-hand side
`(dh, 2h − cot_term + 3·dh²/h)` for every state with `h ≠ 0` and every
`θ`. -/
theorem empty_singularity_flat_rhs (h dh θ : ℝ) (hh : h ≠ 0) :
    singularity_field h θ [] = (1, 0, 0)
    ∧ horizon_RHS (h, dh) θ [] = .ok (dh,
        2 * h - cot_term dh θ (1 / (1 + (dh / h) ^ 2)) + 3 * dh ^ 2 / h) := by
  refine ⟨rfl, ?_⟩
  rw [horizon_RHS_ok _ _ _ (by simp)]
  unfold horizon_RHS_core
  dsimp only
  refine congrArg Except.ok (Prod.ext rfl ?_)
  show 2 * h - cot_term dh θ (1 / (1 + (dh / h) ^ 2))
      + 4 * h ^ 2 / ((singularity_field h θ []).1 * (1 / (1 + (dh / h) ^ 2)))
        * ((singularity_field h θ []).2.1
            - (singularity_field h θ []).2.2 * dh / h ^ 2)
      + 3 * dh ^ 2 / h
    = 2 * h - cot_term dh θ (1 / (1 + (dh / h) ^ 2)) + 3 * dh ^ 2 / h
  have hfield : singularity_field h θ [] = (1, 0, 0) := rfl
  rw [hfield]
  dsimp only
  ring

theorem empty_singularity_flat_rhs_witness :
    (1 : ℝ) ≠ 0
      ∧ horizon_RHS (1, 0) 0 [] = .ok (0,
          2 * 1 - cot_term 0 0 (1 / (1 + ((0 : ℝ) / 1) ^ 2)) + 3 * 0 ^ 2 / 1) :=
  ⟨one_ne_zero, (empty_singularity_flat_rhs 1 0 0 one_ne_zero).2⟩

/-- The RK2 predictor `H_p = H_i + Δθ·F(H_i, θ_i)` (spec §4.3), written
with the arithmetic core of `horizon_RHS` as `F`. -/
noncomputable def predictor (Hi : ℝ × ℝ) (θi dθ : ℝ) (zs : List ℝ) : ℝ × ℝ :=
  (Hi.1 + dθ * (horizon_RHS_core Hi θi zs).1,
   Hi.2 + dθ * (horizon_RHS_core Hi θi zs).2)

theorem euler_step_ok (Hi : ℝ × ℝ) (θi dθ : ℝ) (zs : List ℝ)
    (hzs : ∀ z ∈ zs, 0 ≤ z) :
    euler_step Hi θi dθ zs = .ok (predictor Hi θi dθ zs) := by
  unfold euler_step
  rw [horizon_RHS_ok _ _ _ hzs]
  rfl

theorem rk2_step_ok (Hi : ℝ × ℝ) (θi dθ : ℝ) (zs : List ℝ)
    (hzs : ∀ z ∈ zs, 0 ≤ z) :
    rk2_step Hi θi dθ zs = .ok
      (0.5 * (Hi.1 + (predictor Hi θi dθ zs).1
          + dθ * (horizon_RHS_core (predictor Hi θi dθ zs) (θi + dθ) zs).1),
       0.5 * (Hi.2 + (predictor Hi θi dθ zs).2
          + dθ * (horizon_RHS_core (predictor Hi θi dθ zs) (θi + dθ) zs).2)) := by
  unfold rk2_step
  rw [horizon_RHS_ok _ _ _ hzs]
  dsimp only
  rw [horizon_RHS_ok _ _ _ hzs]
  rfl

/-- C7: under a valid `SingularitySet` the RK2 corrector
`0.5·(H_i + H_p + Δθ·F(H_p, θ_{i+1}))` computed by `rk2_step` is
algebraically equal to the trapezoidal form
`H_i + (Δθ/2)·(F(H_i, θ_i) + F(H_p, θ_{i+1}))`. -/
theorem rk2_step_trapezoid (Hi : ℝ × ℝ) (θi dθ : ℝ) (zs : List ℝ)
    (hzs : ∀ z ∈ zs, 0 ≤ z) :
    rk2_step Hi θi dθ zs = .ok
      (Hi.1 + dθ / 2 * ((horizon_RHS_core Hi θi zs).1
          + (horizon_RHS_core (predictor Hi θi dθ zs) (θi + dθ) zs).1),
       Hi.2 + dθ / 2 * ((horizon_RHS_core Hi θi zs).2
          + (horizon_RHS_core (predictor Hi θi dθ zs) (θi + dθ) zs).2))
    ∧ (0.5 * (Hi.1 + (predictor Hi θi dθ zs).1
          + dθ * (horizon_RHS_core (predictor Hi θi dθ zs) (θi + dθ) zs).1),
       0.5 * (Hi.2 + (predictor Hi θi dθ zs).2
          + dθ * (horizon_RHS_core (predictor Hi θi dθ zs) (θi + dθ) zs).2))
      = (Hi.1 + dθ / 2 * ((horizon_RHS_core Hi θi zs).1
            + (horizon_RHS_core (predictor Hi θi dθ zs) (θi + dθ) zs).1),
         Hi.2 + dθ / 2 * ((horizon_RHS_core Hi θi zs).2
            + (horizon_RHS_core (predictor Hi θi dθ zs) (θi + dθ) zs).2)) := by
  have halg : (0.5 * (Hi.1 + (predictor Hi θi dθ zs).1
          + dθ * (horizon_RHS_core (predictor Hi θi dθ zs) (θi + dθ) zs).1),
       0.5 * (Hi.2 + (predictor Hi θi dθ zs).2
          + dθ * (horizon_RHS_core (predictor Hi θi dθ zs) (θi + dθ) zs).2))
      = (Hi.1 + dθ / 2 * ((horizon_RHS_core Hi θi zs).1
            + (horizon_RHS_core (predictor Hi θi dθ zs) (θi + dθ) zs).1),
         Hi.2 + dθ / 2 * ((horizon_RHS_core Hi θi zs).2
            + (horizon_RHS_core (predictor Hi θi dθ zs) (θi + dθ) zs).2)) := by
    unfold predictor
    refine Prod.ext ?_ ?_ <;> dsimp only <;> ring
  refine ⟨?_, halg⟩
  rw [rk2_step_ok Hi θi dθ zs hzs, halg]

theorem rk2_step_trapezoid_witness :
    (∀ z ∈ ([] : List ℝ), 0 ≤ z)
      ∧ rk2_step (1, 0) 0 1 [] = .ok
          ((1 : ℝ) + 1 / 2 * ((horizon_RHS_core (1, 0) 0 []).1
              + (horizon_RHS_core (predictor (1, 0) 0 1 []) (0 + 1) []).1),
           (0 : ℝ) + 1 / 2 * ((horizon_RHS_core (1, 0) 0 []).2
              + (horizon_RHS_core (predictor (1, 0) 0 1 []) (0 + 1) []).2)) :=
  ⟨by simp, (rk2_step_trapezoid (1, 0) 0 1 [] (by simp)).1⟩

theorem schwarzschild_distance (θ : ℝ) :
    Real.sqrt ((0.5 * Real.sin θ) ^ 2 + (0.5 * Real.cos θ - 0) ^ 2) = 0.5 := by
  have harg : (0.5 * Real.sin θ) ^ 2 + (0.5 * Real.cos θ - 0) ^ 2
      = 0.25 * (Real.sin θ ^ 2 + Real.cos θ ^ 2) := by ring
  rw [harg, Real.sin_sq_add_cos_sq]
  rw [show (0.25 * 1 : ℝ) = 0.5 ^ 2 by norm_num]
  exact Real.sqrt_sq (by norm_num)

theorem schwarzschild_field (θ : ℝ) :
    singularity_field 0.5 θ [0] = (2, -2, 0) := by
  unfold singularity_field
  rw [List.foldl_cons, List.foldl_nil]
  unfold source_contribution
  rw [if_neg (lt_irrefl 0)]
  unfold add3 direct_contribution
  dsimp only
  rw [schwarzschild_distance]
  refine Prod.ext ?_ (Prod.ext ?_ ?_) <;> dsimp only <;> norm_num

theorem schwarzschild_core (θ : ℝ) :
    horizon_RHS_core (0.5, 0) θ [0] = (0, 0) := by
  unfold horizon_RHS_core
  dsimp only
  rw [schwarzschild_field]
  have hcot : cot_term 0 θ (1 / (1 + ((0 : ℝ) / 0.5) ^ 2)) = 0 := by
    unfold cot_term
    split_ifs with hcond
    · rfl
    · rw [zero_div]
  rw [hcot]
  refine Prod.ext rfl ?_
  dsimp only
  norm_num

theorem schwarzschild_valid : ∀ z ∈ [(0 : ℝ)], 0 ≤ z := by
  intro z hz
  simp only [List.mem_singleton] at hz
  rw [hz]

theorem euler_step_schwarzschild (θi dθ : ℝ) :
    euler_step (0.5, 0) θi dθ [0] = .ok (0.5, 0) := by
  rw [euler_step_ok _ _ _ _ schwarzschild_valid]
  unfold predictor
  rw [schwarzschild_core]
  refine congrArg Except.ok (Prod.ext ?_ ?_) <;> dsimp only <;> norm_num

theorem rk2_step_schwarzschild (θi dθ : ℝ) :
    rk2_step (0.5, 0) θi dθ [0] = .ok (0.5, 0) := by
  rw [rk2_step_ok _ _ _ _ schwarzschild_valid]
  have hp : predictor (0.5, 0) θi dθ [0] = (0.5, 0) := by
    unfold predictor
    rw [schwarzschild_core]
    refine Prod.ext ?_ ?_ <;> dsimp only <;> norm_num
  rw [hp, schwarzschild_core]
  refine congrArg Except.ok (Prod.ext ?_ ?_) <;> dsimp only <;> norm_num

/-- C3: for the singularity set `[0]` (Schwarzschild) the state
`(h, dh/dθ) = (0.5, 0)` is, in exact arithmetic, a fixed point of the
right-hand side — `horizon_RHS` returns `(0, 0)` there for every `θ` — so
the Euler and RK2 drivers both keep every entry of the trajectory exactly
at `(0.5, 0)` on any uniform grid (in particular within truncation error
of the constant solution `h ≡ 0.5`, `dh/dθ ≡ 0`). -/
theorem schwarzschild_horizon_preserved :
    (∀ θ : ℝ, horizon_RHS (0.5, 0) θ [0] = .ok (0, 0))
    ∧ (∀ dθ : ℝ, ∀ i : ℕ, integrate euler_step (0.5, 0) dθ [0] i = .ok (0.5, 0))
    ∧ (∀ dθ : ℝ, ∀ i : ℕ, integrate rk2_step (0.5, 0) dθ [0] i = .ok (0.5, 0)) := by
  refine ⟨?_, ?_, ?_⟩
  · intro θ
    rw [horizon_RHS_ok _ _ _ schwarzschild_valid, schwarzschild_core]
  · intro dθ i
    induction i with
    | zero => rfl
    | succ n ih =>
      unfold integrate
      rw [ih]
      exact euler_step_schwarzschild _ _
  · intro dθ i
    induction i with
    | zero => rfl
    | succ n ih =>
      unfold integrate
      rw [ih]
      exact rk2_step_schwarzschild _ _

theorem source_cross_zero_at_equator (h z : ℝ) (hz : 0 ≤ z) :
    (source_contribution h (Real.pi / 2) z).2.2 = 0 := by
  unfold source_contribution
  by_cases hzpos : 0 < z
  · rw [if_pos hzpos]
    unfold add3 direct_contribution mirror_contribution
    dsimp only
    have harg : (h * Real.cos (Real.pi / 2) - z) ^ 2
        = (h * Real.cos (Real.pi / 2) + z) ^ 2 := by
      rw [Real.cos_pi_div_two]
      ring
    rw [harg]
    ring
  · rw [if_neg hzpos]
    have hz0 : z = 0 := le_antisymm (not_lt.mp hzpos) hz
    rw [hz0]
    unfold direct_contribution
    dsimp only
    rw [mul_zero, zero_mul, zero_div, neg_zero]

/-- C10: at `θ = π/2` the accumulated `dψ_dθ` component of the
conformal-factor sample is exactly `0` for every valid `SingularitySet`
and every `h > 0`: a source at `z = 0` contributes a term with factor
`z = 0`, and for `z > 0` the direct and mirror distances coincide (since
`cos(π/2) = 0`) so the sign-flipped mirror cross term cancels the direct
one. -/
theorem equator_cross_term_zero (h : ℝ) (zs : List ℝ)
    (hh : 0 < h) (hzs : ∀ z ∈ zs, 0 ≤ z) :
    (singularity_field h (Real.pi / 2) zs).2.2 = 0 := by
  unfold singularity_field
  have key : ∀ (l : List ℝ), (∀ z ∈ l, 0 ≤ z) → ∀ acc : ℝ × ℝ × ℝ,
      (List.foldl (fun a z => add3 a (source_contribution h (Real.pi / 2) z))
        acc l).2.2 = acc.2.2 := by
    intro l
    induction l with
    | nil =>
      intro _ acc
      rfl
    | cons z l ih =>
      intro hl acc
      rw [List.foldl_cons]
      rw [ih (fun w hw => hl w (List.mem_cons_of_mem _ hw))]
      show (add3 acc (source_contribution h (Real.pi / 2) z)).2.2 = acc.2.2
      unfold add3
      dsimp only
      rw [source_cross_zero_at_equator h z (hl z (List.mem_cons_self _ _))]
      ring
  exact key zs hzs (1, 0, 0)

theorem equator_cross_term_zero_witness :
    (0 : ℝ) < 1 ∧ (∀ z ∈ [(0 : ℝ)], 0 ≤ z)
      ∧ (singularity_field 1 (Real.pi / 2) [0]).2.2 = 0 := by
  have hv : ∀ z ∈ [(0 : ℝ)], 0 ≤ z := by
    intro z hz
    simp only [List.mem_singleton] at hz
    rw [hz]
  exact ⟨one_pos, hv, equator_cross_term_zero 1 [0] one_pos hv⟩

theorem secant_loop_contract (R : ℝ → ℝ) (tol : ℝ) :
    ∀ (n : ℕ) (x0 x1 : ℝ),
      (∀ x, secant_loop R tol n x0 x1 = .ok x → |R x| < tol)
      ∧ (∀ x r, secant_loop R tol n x0 x1 = .error (.nonConvergence x r) →
          r = R x ∧ ¬ |R x| < tol)
      ∧ (|R x1| < tol → secant_loop R tol n x0 x1 = .ok x1) := by
  intro n
  induction n with
  | zero =>
    intro x0 x1
    by_cases htol : |R x1| < tol
    · refine ⟨?_, ?_, fun _ => by simp [secant_loop, if_pos htol]⟩
      · intro x hx
        simp only [secant_loop, if_pos htol, Except.ok.injEq] at hx
        rw [← hx]
        exact htol
      · intro x r hx
        simp only [secant_loop, if_pos htol] at hx
        exact Except.noConfusion hx
    · refine ⟨?_, ?_, fun h => absurd h htol⟩
      · intro x hx
        simp only [secant_loop, if_neg htol] at hx
        exact Except.noConfusion hx
      · intro x r hx
        simp only [secant_loop, if_neg htol, Except.error.injEq,
          SecantError.nonConvergence.injEq] at hx
        obtain ⟨hx1, hr⟩ := hx
        rw [← hx1, ← hr]
        exact ⟨rfl, htol⟩
  | succ n ih =>
    intro x0 x1
    by_cases htol : |R x1| < tol
    · refine ⟨?_, ?_, fun _ => by simp [secant_loop, if_pos htol]⟩
      · intro x hx
        simp only [secant_loop, if_pos htol, Except.ok.injEq] at hx
        rw [← hx]
        exact htol
      · intro x r hx
        simp only [secant_loop, if_pos htol] at hx
        exact Except.noConfusion hx
    · by_cases hden : R x1 - R x0 = 0
      · refine ⟨?_, ?_, fun h => absurd h htol⟩
        · intro x hx
          simp only [secant_loop, if_neg htol, if_pos hden] at hx
          exact Except.noConfusion hx
        · intro x r hx
          simp only [secant_loop, if_neg htol, if_pos hden,
            Except.error.injEq] at hx
          cases hx
      · refine ⟨?_, ?_, fun h => absurd h htol⟩
        · intro x hx
          simp only [secant_loop, if_neg htol, if_neg hden] at hx
          exact (ih x1 (x1 - R x1 * (x1 - x0) / (R x1 - R x0))).1 x hx
        · intro x r hx
          simp only [secant_loop, if_neg htol, if_neg hden] at hx
          exact (ih x1 (x1 - R x1 * (x1 - x0) / (R x1 - R x0))).2.1 x r hx

/-- C8: `secant` takes a `maxIterations` bound alongside the tolerance
(the stub signature in the notebook defaults the latter to `1e-10`, recorded by
`default_tolerance`); whenever it returns a value `x` the convergence
criterion `|R x| < tolerance` holds (and conversely a seed already meeting
the criterion is returned at once), and when the iteration budget is
exhausted without meeting the tolerance it fails with a
`NonConvergenceError` carrying the last iterate `x` together with its
residual `R x`. -/
theorem secant_contract (R : ℝ → ℝ) (x0 x1 tol : ℝ) (maxIterations : ℕ) :
    default_tolerance = 1e-10
    ∧ (∀ x, secant R x0 x1 maxIterations tol = .ok x → |R x| < tol)
    ∧ (∀ x r, secant R x0 x1 maxIterations tol = .error (.nonConvergence x r) →
        r = R x ∧ ¬ |R x| < tol)
    ∧ (|R x1| < tol → secant R x0 x1 maxIterations tol = .ok x1) := by
  refine ⟨rfl, ?_⟩
  unfold secant
  exact secant_loop_contract R tol maxIterations x0 x1

theorem secant_contract_witness :
    |(fun x : ℝ => x) 0| < 1
      ∧ secant (fun x : ℝ => x) 5 0 3 1 = .ok 0 := by
  have h0 : |(fun x : ℝ => x) 0| < 1 := by
    simp only [abs_zero]
    norm_num
  exact ⟨h0, (secant_contract (fun x : ℝ => x) 5 0 1 3).2.2.2 h0⟩

end HorizonFinding
